import Mathlib

/-!
Verification of the chunking and normalization pipeline of the Web_Scraper
repository, as a shallow embedding of src/web_scraper.py.

Conventions of the embedding:
* Python values occurring in chunk metadata are modelled by the inductive
  type Value below.  Floats are carried as their repr string: no float
  arithmetic happens anywhere in the modelled code paths.
* The tiktoken tokenizer is an external dependency; it is modelled as a
  pair of pure functions (a Tokenizer structure).  Concrete statements are
  instantiated with a character-level tokenizer.
* hashlib.md5(...).hexdigest() is an external hash; definitions take the
  hash as a function parameter, and statements that need collision
  freedom assume it injective (counterexamples instantiate it with an
  injective concrete function, which only strengthens them).
* Fallible Python operations (json.dumps raising TypeError, range() with a
  zero step raising ValueError) are modelled with Option results.
-/

namespace WebScraper

/-- Python values appearing in chunk metadata.  The catch-all constructor
holds the str() rendering of any other Python object (sets, custom
objects, ...), which is all the sanitizer ever uses of them. -/
inductive Value where
  | str (s : String)
  | int (n : Int)
  | float (r : String)
  | bool (b : Bool)
  | none
  | list (xs : List Value)
  | dict (kvs : List (String × Value))
  | other (s : String)

/-- Lowercase hex digit, as produced by json.dumps \uXXXX escapes. -/
def hexDigit (n : Nat) : Char :=
  ("0123456789abcdef".data).getD n (Char.ofNat 48)

/-- Four-digit lowercase hex rendering of a code unit. -/
def hex4 (n : Nat) : String :=
  ⟨[hexDigit (n / 4096 % 16), hexDigit (n / 256 % 16),
    hexDigit (n / 16 % 16), hexDigit (n % 16)]⟩

/-- json.dumps escape of a non-ASCII or control code point
(ensure_ascii=True default): basic multilingual plane code points become
one \uXXXX escape, larger ones a surrogate pair. -/
def jsonEscapeUnicode (n : Nat) : String :=
  if n ≤ 0xFFFF then "\\u" ++ hex4 n
  else
    "\\u" ++ hex4 (0xD800 + (n - 0x10000) / 0x400) ++
    "\\u" ++ hex4 (0xDC00 + (n - 0x10000) % 0x400)

/-- json.dumps escaping of one character inside a JSON string literal:
backslash, double quote and the usual short escapes, \uXXXX for everything
outside printable ASCII. -/
def jsonEscapeChar (c : Char) : String :=
  if c = Char.ofNat 34 then "\\\""
  else if c = Char.ofNat 92 then "\\\\"
  else if c = Char.ofNat 10 then "\\n"
  else if c = Char.ofNat 13 then "\\r"
  else if c = Char.ofNat 9 then "\\t"
  else if c = Char.ofNat 8 then "\\b"
  else if c = Char.ofNat 12 then "\\f"
  else if c.toNat < 0x20 ∨ 0x7E < c.toNat then jsonEscapeUnicode c.toNat
  else ⟨[c]⟩

/-- A JSON string literal for s, json.dumps style. -/
def jsonQuote (s : String) : String :=
  "\"" ++ String.join (s.data.map jsonEscapeChar) ++ "\""

mutual

/-- The text json.dumps would produce for a value, with the default
separators (", " between items, ": " after keys).  For values that
json.dumps rejects (the catch-all constructor) this writer is never
reached through jsonDumps below, which guards with jsonSerializable. -/
def jsonDumpsStr : Value → String
  | .str s => jsonQuote s
  | .int n => toString n
  | .float r => r
  | .bool b => if b then "true" else "false"
  | .none => "null"
  | .list xs => "[" ++ String.intercalate ", " (jsonDumpsList xs) ++ "]"
  | .dict kvs => "\x7b" ++ String.intercalate ", " (jsonDumpsDict kvs) ++ "\x7d"
  | .other s => s

/-- Item texts of a JSON array. -/
def jsonDumpsList : List Value → List String
  | [] => []
  | v :: vs => jsonDumpsStr v :: jsonDumpsList vs

/-- Entry texts of a JSON object. -/
def jsonDumpsDict : List (String × Value) → List String
  | [] => []
  | (k, v) :: kvs => (jsonQuote k ++ ": " ++ jsonDumpsStr v) :: jsonDumpsDict kvs

end

mutual

/-- Whether json.dumps accepts the value: everything except objects of
unknown type, recursively. -/
def jsonSerializable : Value → Bool
  | .str _ => true
  | .int _ => true
  | .float _ => true
  | .bool _ => true
  | .none => true
  | .list xs => jsonSerializableList xs
  | .dict kvs => jsonSerializableDict kvs
  | .other _ => false

/-- jsonSerializable over array items. -/
def jsonSerializableList : List Value → Bool
  | [] => true
  | v :: vs => jsonSerializable v && jsonSerializableList vs

/-- jsonSerializable over object entries. -/
def jsonSerializableDict : List (String × Value) → Bool
  | [] => true
  | (_, v) :: kvs => jsonSerializable v && jsonSerializableDict kvs

end

/-- json.dumps: fails (TypeError) exactly on values containing an object
of unknown type, otherwise produces the serialized text. -/
def jsonDumps (v : Value) : Option String :=
  if jsonSerializable v then some (jsonDumpsStr v) else Option.none

/-- Python repr() of a string.  repr chooses single quotes unless the
string holds a single quote and no double quote; backslash, the chosen
quote and the common control characters are escaped (the model covers
the ASCII payloads of this development). -/
def pyReprString (s : String) : String :=
  let q : Char := if s.data.contains (Char.ofNat 39) &&
      ! s.data.contains (Char.ofNat 34) then Char.ofNat 34 else Char.ofNat 39
  ⟨[q]⟩ ++ String.join (s.data.map (fun c =>
    if c = Char.ofNat 92 then "\\\\"
    else if c = q then "\\" ++ ⟨[q]⟩
    else if c = Char.ofNat 10 then "\\n"
    else if c = Char.ofNat 13 then "\\r"
    else if c = Char.ofNat 9 then "\\t"
    else ⟨[c]⟩)) ++ ⟨[q]⟩

mutual

/-- Python repr() of a value. -/
def pyRepr : Value → String
  | .str s => pyReprString s
  | .int n => toString n
  | .float r => r
  | .bool b => if b then "True" else "False"
  | .none => "None"
  | .list xs => "[" ++ String.intercalate ", " (pyReprList xs) ++ "]"
  | .dict kvs => "\x7b" ++ String.intercalate ", " (pyReprDict kvs) ++ "\x7d"
  | .other s => s

/-- repr over list items. -/
def pyReprList : List Value → List String
  | [] => []
  | v :: vs => pyRepr v :: pyReprList vs

/-- repr over dict entries (dict keys here are strings, rendered with
the string repr). -/
def pyReprDict : List (String × Value) → List String
  | [] => []
  | (k, v) :: kvs => (pyReprString k ++ ": " ++ pyRepr v) :: pyReprDict kvs

end

/-- Python str() of a value: the string itself for strings, the str()
form for unknown objects, repr for everything else (for which the two
agree). -/
def pyStr : Value → String
  | .str s => s
  | .other s => s
  | v => pyRepr v

/-- Test from the source line 129: isinstance(value, (str, int, float,
bool)) or value is None. -/
def isScalar : Value → Bool
  | .str _ => true
  | .int _ => true
  | .float _ => true
  | .bool _ => true
  | .none => true
  | _ => false

/-- Test from the source line 133: isinstance(item, (str, int, float)).
Python bools are instances of int, so they pass this test as well. -/
def isStrIntFloat : Value → Bool
  | .str _ => true
  | .int _ => true
  | .float _ => true
  | .bool _ => true
  | _ => false

/-- MusicDataScraper._sanitize_metadata_for_chromadb, per value (source
lines 128-142): scalars pass through, lists of scalars are joined with
", ", other lists are str()-ed, dicts go through json.dumps (which can
raise, hence the Option), anything else is str()-ed. -/
def sanitizeValue (v : Value) : Option Value :=
  match v with
  | .str _ => some v
  | .int _ => some v
  | .float _ => some v
  | .bool _ => some v
  | .none => some v
  | .list xs =>
    if !xs.isEmpty && xs.all isStrIntFloat then
      some (.str (String.intercalate ", " (xs.map pyStr)))
    else
      some (.str (pyStr (.list xs)))
  | .dict kvs => Option.map Value.str (jsonDumps (.dict kvs))
  | .other _ => some (.str (pyStr v))

/-- MusicDataScraper._sanitize_metadata_for_chromadb over a whole
metadata mapping (modelled as an association list in insertion order,
matching Python dict iteration).  The loop assigns sanitized[key] per
entry; an exception from a nested json.dumps aborts the whole call. -/
def sanitizeMetadata : List (String × Value) → Option (List (String × Value))
  | [] => some []
  | (k, v) :: rest =>
    (sanitizeValue v).bind fun w =>
      (sanitizeMetadata rest).map fun out => (k, w) :: out

/-- A value the sanitizer accepts without raising: only the dict branch
can fail, and only on dicts that json.dumps rejects. -/
def sanitizeSafe : Value → Bool
  | .dict kvs => jsonSerializable (.dict kvs)
  | _ => true

theorem sanitizeValue_scalar {v w : Value} (h : sanitizeValue v = some w) :
    isScalar w = true := by
  cases v with
  | str s => cases h; rfl
  | int n => cases h; rfl
  | float r => cases h; rfl
  | bool b => cases h; rfl
  | none => cases h; rfl
  | list xs =>
    simp only [sanitizeValue] at h
    split at h <;> (cases h; rfl)
  | dict kvs =>
    simp only [sanitizeValue, jsonDumps] at h
    split at h
    · cases h; rfl
    · simp at h
  | other s => cases h; rfl

theorem sanitizeValue_of_isScalar {v : Value} (h : isScalar v = true) :
    sanitizeValue v = some v := by
  cases v <;> first | rfl | simp [isScalar] at h

theorem sanitizeValue_isSome_of_safe {v : Value} (h : sanitizeSafe v = true) :
    (sanitizeValue v).isSome = true := by
  cases v with
  | list xs => simp only [sanitizeValue]; split <;> rfl
  | dict kvs =>
    simp only [sanitizeSafe] at h
    simp [sanitizeValue, jsonDumps, h]
  | _ => rfl

theorem sanitizeMetadata_scalar :
    ∀ (m out : List (String × Value)), sanitizeMetadata m = some out →
      ∀ kv ∈ out, isScalar kv.2 = true := by
  intro m
  induction m with
  | nil =>
    intro out h kv hin
    rw [sanitizeMetadata] at h
    cases h
    simp at hin
  | cons p rest ih =>
    intro out h kv hin
    obtain ⟨k, v⟩ := p
    rw [sanitizeMetadata] at h
    cases hv : sanitizeValue v with
    | none => rw [hv] at h; simp at h
    | some w =>
      cases hrest : sanitizeMetadata rest with
      | none => rw [hv, hrest] at h; simp at h
      | some outRest =>
        rw [hv, hrest] at h
        simp only [Option.some_bind, Option.map_some'] at h
        cases h
        rcases List.mem_cons.mp hin with hin | hin
        · rw [hin]; exact sanitizeValue_scalar hv
        · exact ih outRest hrest kv hin

/-- Claim C3, counterexample: sanitization is not total.  A metadata
mapping whose nested mapping holds a Python set (an object json.dumps
rejects) makes _sanitize_metadata_for_chromadb raise TypeError, modelled
here as the sanitizer returning no result. -/
theorem sanitize_total_cex :
    sanitizeMetadata [("nested", Value.dict [("a", Value.other "\x7b1, 2\x7d")])] =
      Option.none := rfl

/-- Claim C3, amended: on every input on which it does return (in
particular whenever every nested mapping is json-serializable, which is
always the case for the scalar/list/string metadata this program builds),
the sanitizer restricts values to string, number, boolean or null;
scalars pass through, scalar collections are comma-joined, nested
mappings become JSON text; the cited scenario holds.  It is not total:
a nested mapping holding a non-serializable object makes it raise. -/
theorem sanitize_total_amended :
    (∀ m out, sanitizeMetadata m = some out → ∀ kv ∈ out, isScalar kv.2 = true) ∧
    (∀ m : List (String × Value), (∀ kv ∈ m, sanitizeSafe kv.2 = true) →
      (sanitizeMetadata m).isSome = true) ∧
    sanitizeMetadata
        [("notes", Value.list [Value.int 1, Value.int 2, Value.int 3]),
         ("nested", Value.dict [("a", Value.int 1)])] =
      some [("notes", Value.str "1, 2, 3"),
            ("nested", Value.str "\x7b\"a\": 1\x7d")] := by
  refine ⟨sanitizeMetadata_scalar, ?_, rfl⟩
  intro m
  induction m with
  | nil => intro _; rfl
  | cons p rest ih =>
    intro hsafe
    obtain ⟨k, v⟩ := p
    have h1 : (sanitizeValue v).isSome = true :=
      sanitizeValue_isSome_of_safe (hsafe (k, v) (by simp))
    have h2 := ih (fun kv hin => hsafe kv (by simp [hin]))
    rw [sanitizeMetadata]
    cases hv : sanitizeValue v with
    | none => rw [hv] at h1; simp at h1
    | some w =>
      cases hrest : sanitizeMetadata rest with
      | none => rw [hrest] at h2; simp at h2
      | some outRest => rfl

/-- Witness for sanitize_total_amended at concrete inputs. -/
theorem sanitize_total_amended_witness :
    (∀ kv ∈ [("k", Value.str "v")], isScalar (Prod.snd kv) = true) ∧
    (sanitizeMetadata [("nested", Value.dict [("a", Value.int 1)])]).isSome = true :=
  ⟨sanitize_total_amended.1 [("k", Value.str "v")] [("k", Value.str "v")] rfl,
   sanitize_total_amended.2.1 [("nested", Value.dict [("a", Value.int 1)])]
     (by intro kv hin; simp at hin; rw [hin]; rfl)⟩

/-- Claim C10, counterexample: the sanitizer does not return a mapping at
all (it raises) for a mapping whose nested mapping holds an object
json.dumps rejects, so it is not key-preserving on every input. -/
theorem sanitize_idempotent_cex :
    sanitizeMetadata [("x", Value.dict [("y", Value.other "<object object>")])] =
      Option.none := rfl

/-- Claim C10, amended: whenever the sanitizer returns (it can raise on
nested mappings holding non-serializable objects), it preserves the key
sequence exactly, and it is idempotent: sanitizing its own output
returns that output unchanged, since every output value is a scalar. -/
theorem sanitize_idempotent_amended :
    ∀ m out, sanitizeMetadata m = some out →
      out.map Prod.fst = m.map Prod.fst ∧ sanitizeMetadata out = some out := by
  intro m
  induction m with
  | nil =>
    intro out h
    rw [sanitizeMetadata] at h
    cases h
    exact ⟨rfl, rfl⟩
  | cons p rest ih =>
    intro out h
    obtain ⟨k, v⟩ := p
    rw [sanitizeMetadata] at h
    cases hv : sanitizeValue v with
    | none => rw [hv] at h; simp at h
    | some w =>
      cases hrest : sanitizeMetadata rest with
      | none => rw [hv, hrest] at h; simp at h
      | some outRest =>
        rw [hv, hrest] at h
        simp only [Option.some_bind, Option.map_some'] at h
        cases h
        obtain ⟨hkeys, hidem⟩ := ih outRest hrest
        refine ⟨by simp [hkeys], ?_⟩
        have hw : sanitizeValue w = some w :=
          sanitizeValue_of_isScalar (sanitizeValue_scalar hv)
        rw [sanitizeMetadata, hw, hidem]
        rfl

/-- Witness for sanitize_idempotent_amended at a concrete input. -/
theorem sanitize_idempotent_amended_witness :
    ([("a", Value.str "1, 2")].map Prod.fst =
      [("a", Value.list [Value.int 1, Value.int 2])].map Prod.fst) ∧
    sanitizeMetadata [("a", Value.str "1, 2")] = some [("a", Value.str "1, 2")] :=
  sanitize_idempotent_amended [("a", Value.list [Value.int 1, Value.int 2])]
    [("a", Value.str "1, 2")] rfl

/-! ## The Chunker: MusicDataScraper._chunk_text -/

/-- The tiktoken cl100k_base tokenizer adapter: an external dependency,
treated as a pure encode/decode function pair. -/
structure Tokenizer where
  encode : String → List Nat
  decode : List Nat → String

/-- Python str whitespace (the ASCII whitespace characters; str.strip()
with no arguments strips exactly these in the data handled here). -/
def pyWhitespace (c : Char) : Bool :=
  c = Char.ofNat 32 || c = Char.ofNat 9 || c = Char.ofNat 10 ||
  c = Char.ofNat 13 || c = Char.ofNat 11 || c = Char.ofNat 12

/-- Python str.strip(): drop whitespace from both ends. -/
def pythonStrip (s : String) : String :=
  ⟨((s.data.dropWhile pyWhitespace).reverse.dropWhile pyWhitespace).reverse⟩

/-- metadata.get(key, "") rendered into an f-string: the str() of the
value when the key is present, the empty default otherwise. -/
def metaGetStr (m : List (String × Value)) (k : String) : String :=
  match m.lookup k with
  | some v => pyStr v
  | Option.none => ""

/-- The slices l[i:i+n] for i in range(0, len(l), n), written with the
index list exactly as the Python loop header produces it (the count of
range(0, L, n) is ceil(L/n) for a positive step n). -/
def chunkWindows (n : Nat) (l : List α) : List (List α) :=
  (List.range' 0 ((l.length + n - 1) / n) n).map fun i => (l.drop i).take n

/-- Recursive characterisation of chunkWindows, used for proofs.  The
step-zero case is unreachable through chunkWindows (Python range raises
on it first); it is given the value that keeps the equations total. -/
def chunkList : Nat → List α → List (List α)
  | _, [] => []
  | 0, _ :: _ => []
  | n+1, x :: xs => ((x :: xs).take (n+1)) :: chunkList (n+1) ((x :: xs).drop (n+1))
termination_by _ l => l.length
decreasing_by simp [List.length_drop]; omega

theorem chunkList_nil {α : Type} (n : Nat) : chunkList n ([] : List α) = [] := by
  simp [chunkList]

theorem chunkList_cons {α : Type} (m : Nat) (x : α) (xs : List α) :
    chunkList (m+1) (x :: xs) =
      ((x :: xs).take (m+1)) :: chunkList (m+1) ((x :: xs).drop (m+1)) := by
  simp [chunkList]

theorem chunkWindows_nil {α : Type} (n : Nat) : chunkWindows n ([] : List α) = [] := by
  have h : (List.length ([] : List α) + n - 1) / n = 0 := by
    simp only [List.length_nil, Nat.zero_add]
    rcases Nat.eq_zero_or_pos n with rfl | hn
    · simp
    · exact Nat.div_eq_of_lt (by omega)
  rw [chunkWindows, h]
  rfl

theorem range'_shift_map {β : Type} (f : Nat → β) (a step : Nat) :
    ∀ (k s : Nat), (List.range' (s + a) k step).map f =
      (List.range' s k step).map (fun i => f (i + a)) := by
  intro k
  induction k with
  | zero => intro s; rfl
  | succ k ih =>
    intro s
    simp only [List.range'_succ, List.map_cons]
    refine congrArg₂ List.cons rfl ?_
    have h1 : s + a + step = (s + step) + a := by omega
    rw [h1]
    exact ih (s + step)

theorem chunkWindows_eq_chunkList {α : Type} (n : Nat) (hn : 0 < n) :
    ∀ l : List α, chunkWindows n l = chunkList n l := by
  obtain ⟨m, rfl⟩ : ∃ m, n = m + 1 := ⟨n - 1, by omega⟩
  have main : ∀ (N : Nat) (l : List α), l.length ≤ N →
      chunkWindows (m+1) l = chunkList (m+1) l := by
    intro N
    induction N with
    | zero =>
      intro l hl
      have hnil : l = [] := List.eq_nil_of_length_eq_zero (Nat.le_zero.mp hl)
      subst hnil
      rw [chunkWindows_nil, chunkList_nil]
    | succ N ih =>
      intro l hl
      cases l with
      | nil => rw [chunkWindows_nil, chunkList_nil]
      | cons x xs =>
        rw [chunkList_cons]
        have hcount : ((x :: xs).length + (m+1) - 1) / (m+1) =
            ((x :: xs).length - 1) / (m+1) + 1 := by
          rw [show (x :: xs).length + (m+1) - 1 = ((x :: xs).length - 1) + (m+1) by
            simp; omega]
          exact Nat.add_div_right _ (by omega)
        rw [chunkWindows, hcount, List.range'_succ, List.map_cons, List.drop_zero]
        refine congrArg₂ List.cons rfl ?_
        rw [range'_shift_map (fun i => ((x :: xs).drop i).take (m+1)) (m+1) (m+1)
          (((x :: xs).length - 1) / (m+1)) 0]
        have harg : (fun i => (((x :: xs).drop (i + (m+1))).take (m+1))) =
            (fun i => ((((x :: xs).drop (m+1)).drop i).take (m+1))) := by
          funext i
          rw [List.drop_drop, Nat.add_comm i (m+1)]
        rw [harg]
        have htail : chunkWindows (m+1) ((x :: xs).drop (m+1)) =
            chunkList (m+1) ((x :: xs).drop (m+1)) := by
          apply ih
          simp only [List.length_cons] at hl
          simp only [List.length_drop, List.length_cons]
          omega
        have hk : ((x :: xs).length - 1) / (m+1) =
            (((x :: xs).drop (m+1)).length + (m+1) - 1) / (m+1) := by
          rcases le_or_lt (x :: xs).length (m+1) with hle | hlt
          · rw [List.drop_eq_nil_of_le hle]
            simp only [List.length_nil, Nat.zero_add]
            rw [Nat.div_eq_of_lt (by simp at hle ⊢; omega),
              Nat.div_eq_of_lt (by omega)]
          · rw [List.length_drop]
            congr 1
            simp only [List.length_cons] at hlt ⊢
            omega
        rw [hk]
        exact htail
  intro l
  exact main l.length l (Nat.le_refl _)

theorem chunkList_flatten {α : Type} (n : Nat) (hn : 0 < n) :
    ∀ l : List α, (chunkList n l).flatten = l := by
  obtain ⟨m, rfl⟩ : ∃ m, n = m + 1 := ⟨n - 1, by omega⟩
  have main : ∀ (N : Nat) (l : List α), l.length ≤ N →
      (chunkList (m+1) l).flatten = l := by
    intro N
    induction N with
    | zero =>
      intro l hl
      have hnil : l = [] := List.eq_nil_of_length_eq_zero (Nat.le_zero.mp hl)
      subst hnil
      rw [chunkList_nil]
      rfl
    | succ N ih =>
      intro l hl
      cases l with
      | nil => rw [chunkList_nil]; rfl
      | cons x xs =>
        rw [chunkList_cons, List.flatten_cons,
          ih ((x :: xs).drop (m+1)) (by simp only [List.length_drop, List.length_cons] at hl ⊢; omega)]
        exact List.take_append_drop _ _
  intro l
  exact main l.length l (Nat.le_refl _)

theorem chunkList_mem {α : Type} (n : Nat) (hn : 0 < n) :
    ∀ (l : List α) (w : List α), w ∈ chunkList n l → w.length ≤ n ∧ w ≠ [] := by
  obtain ⟨m, rfl⟩ : ∃ m, n = m + 1 := ⟨n - 1, by omega⟩
  have main : ∀ (N : Nat) (l : List α), l.length ≤ N →
      ∀ w ∈ chunkList (m+1) l, w.length ≤ m + 1 ∧ w ≠ [] := by
    intro N
    induction N with
    | zero =>
      intro l hl w hw
      have hnil : l = [] := List.eq_nil_of_length_eq_zero (Nat.le_zero.mp hl)
      subst hnil
      rw [chunkList_nil] at hw
      simp at hw
    | succ N ih =>
      intro l hl w hw
      cases l with
      | nil =>
        rw [chunkList_nil] at hw
        simp at hw
      | cons x xs =>
        rw [chunkList_cons] at hw
        rcases List.mem_cons.mp hw with hw | hw
        · subst hw
          constructor
          · simp [List.length_take]
          · simp
        · exact ih _
            (by simp only [List.length_drop, List.length_cons] at hl ⊢; omega) w hw
  intro l
  exact main l.length l (Nat.le_refl _)

theorem chunkList_dropLast {α : Type} (n : Nat) (hn : 0 < n) :
    ∀ (l : List α) (w : List α), w ∈ (chunkList n l).dropLast → w.length = n := by
  obtain ⟨m, rfl⟩ : ∃ m, n = m + 1 := ⟨n - 1, by omega⟩
  have main : ∀ (N : Nat) (l : List α), l.length ≤ N →
      ∀ w ∈ (chunkList (m+1) l).dropLast, w.length = m + 1 := by
    intro N
    induction N with
    | zero =>
      intro l hl w hw
      have hnil : l = [] := List.eq_nil_of_length_eq_zero (Nat.le_zero.mp hl)
      subst hnil
      rw [chunkList_nil] at hw
      simp at hw
    | succ N ih =>
      intro l hl w hw
      cases l with
      | nil =>
        rw [chunkList_nil] at hw
        simp at hw
      | cons x xs =>
        rw [chunkList_cons] at hw
        rcases hrest : chunkList (m+1) ((x :: xs).drop (m+1)) with _ | ⟨r, rs⟩
        · rw [hrest] at hw
          simp at hw
        · rw [hrest, List.dropLast_cons_of_ne_nil (by simp)] at hw
          rcases List.mem_cons.mp hw with hw | hw
          · subst hw
            have hdrop : (x :: xs).drop (m+1) ≠ [] := by
              intro hd
              rw [hd, chunkList_nil] at hrest
              simp at hrest
            have hlong : m + 1 < (x :: xs).length := by
              by_contra hc
              exact hdrop (List.drop_eq_nil_of_le (by omega))
            simp only [List.length_take]
            omega
          · rw [← hrest] at hw
            exact ih _
              (by simp only [List.length_drop, List.length_cons] at hl ⊢; omega) w hw
  intro l
  exact main l.length l (Nat.le_refl _)

/-- One entry of the list MusicDataScraper._chunk_text returns: the dict
with content, a copy of the metadata, the md5-based chunk_id and the
token count of the window. -/
structure ChunkData where
  content : String
  metadata : List (String × Value)
  chunk_id : String
  token_count : Nat

/-- MusicDataScraper._chunk_text (source lines 105-123) for a positive
chunk size: encode the text, slice the token list into chunk_size
windows, decode each window, and emit the stripped text, a metadata
copy, chunk_id = hash(source + decoded text) and the window length.
Note the id hashes the decoded text before stripping, while the content
field is the stripped text. -/
def chunkText (hash : String → String) (tk : Tokenizer) (chunkSize : Nat)
    (text : String) (meta : List (String × Value)) : List ChunkData :=
  (chunkWindows chunkSize (tk.encode text)).map fun w =>
    { content := pythonStrip (tk.decode w)
      metadata := meta
      chunk_id := hash (metaGetStr meta "source" ++ tk.decode w)
      token_count := w.length }

/-- Python range(0, stop, step) for stop ≥ 0: raises ValueError on a
zero step (no result), is empty for a negative step, and is the usual
progression for a positive step. -/
def pythonRange0 (stop : Nat) (step : Int) : Option (List Nat) :=
  if step = 0 then Option.none
  else if step < 0 then some []
  else some (List.range' 0 ((stop + step.toNat - 1) / step.toNat) step.toNat)

/-- MusicDataScraper._chunk_text with the chunk size as the raw Python
int, exposing the behaviour of range() on non-positive steps.  The
scraper constructor (source lines 63-84) stores chunk_size without any
validation, so this is reached with whatever value was configured. -/
def chunkTextE (hash : String → String) (tk : Tokenizer) (chunkSize : Int)
    (text : String) (meta : List (String × Value)) : Option (List ChunkData) :=
  (pythonRange0 (tk.encode text).length chunkSize).map fun is =>
    is.map fun i =>
      let w := ((tk.encode text).drop i).take chunkSize.toNat
      { content := pythonStrip (tk.decode w)
        metadata := meta
        chunk_id := hash (metaGetStr meta "source" ++ tk.decode w)
        token_count := w.length }

theorem chunkTextE_pos (hash : String → String) (tk : Tokenizer) (n : Nat)
    (hn : 0 < n) (text : String) (meta : List (String × Value)) :
    chunkTextE hash tk (n : Int) text meta = some (chunkText hash tk n text meta) := by
  rw [chunkTextE, pythonRange0]
  rw [if_neg (by omega), if_neg (by omega)]
  rw [Option.map_some']
  rw [chunkText, chunkWindows, Int.toNat_ofNat, List.map_map]
  rfl

/-- Character-level tokenizer used in concrete statements: every
character is one token, its code point. -/
def charTok : Tokenizer where
  encode s := s.data.map Char.toNat
  decode ts := ⟨ts.map Char.ofNat⟩

/-- A text of 650 characters, encoding to 650 tokens under charTok. -/
def text650 : String := ⟨List.replicate 650 (Char.ofNat 97)⟩

set_option maxRecDepth 40000 in
/-- Claim C1 (confirmed): for chunk_size n > 0, _chunk_text slices the
encoded token sequence into contiguous, non-overlapping, in-order
windows covering all of it; every chunk's token_count is at most n,
every window but the last has exactly n tokens, and a 650-token text at
chunk_size 300 yields token counts [300, 300, 50]. -/
theorem chunk_text_partition :
    (∀ (hash : String → String) (tk : Tokenizer) (n : Nat) (t : String)
        (m : List (String × Value)), 0 < n →
      (chunkWindows n (tk.encode t)).flatten = tk.encode t ∧
      (chunkText hash tk n t m).map ChunkData.token_count =
        (chunkWindows n (tk.encode t)).map List.length ∧
      (∀ c ∈ chunkText hash tk n t m, c.token_count ≤ n) ∧
      (∀ w ∈ (chunkWindows n (tk.encode t)).dropLast, w.length = n)) ∧
    (chunkText (fun s => s) charTok 300 text650 []).map ChunkData.token_count =
      [300, 300, 50] ∧
    (chunkText (fun s => s) charTok 300 text650 []).length = 3 := by
  refine ⟨?_, by decide, by decide⟩
  intro hash tk n t m hn
  rw [chunkWindows_eq_chunkList n hn]
  refine ⟨chunkList_flatten n hn _, ?_, ?_, fun w hw => chunkList_dropLast n hn _ w hw⟩
  · rw [chunkText, chunkWindows_eq_chunkList n hn, List.map_map]
    rfl
  · intro c hc
    rw [chunkText, chunkWindows_eq_chunkList n hn] at hc
    obtain ⟨w, hw, rfl⟩ := List.mem_map.mp hc
    exact (chunkList_mem n hn _ w hw).1

/-- Witness for chunk_text_partition at chunk size 2 over a three-token
text. -/
theorem chunk_text_partition_witness :
    (chunkWindows 2 (charTok.encode "abc")).flatten = charTok.encode "abc" ∧
    (chunkText (fun s => s) charTok 2 "abc" []).map ChunkData.token_count =
      (chunkWindows 2 (charTok.encode "abc")).map List.length :=
  ⟨(chunk_text_partition.1 (fun s => s) charTok 2 "abc" [] (by decide)).1,
   (chunk_text_partition.1 (fun s => s) charTok 2 "abc" [] (by decide)).2.1⟩

/-- The metadata used by the chunk-identity statements. -/
def srcMeta : List (String × Value) := [("source", Value.str "S")]

/-- Claim C4, counterexample: the chunk_id is not a function of
(source, positional fields, content).  The id hashes the decoded window
before stripping while content is the stripped text, so the one-chunk
results of "a" and "a " agree on source and content ("a") yet carry
different ids ("Sa" versus "Sa " under the identity hash; md5 of those
two strings differs as well since md5 is applied to different inputs
that an injective model hash keeps apart). -/
theorem chunk_id_function_cex :
    (chunkText (fun s => s) charTok 2 "a" srcMeta).map
        (fun c => (c.content, c.chunk_id)) = [("a", "Sa")] ∧
    (chunkText (fun s => s) charTok 2 "a " srcMeta).map
        (fun c => (c.content, c.chunk_id)) = [("a", "Sa ")] ∧
    ("Sa" : String) ≠ "Sa " := ⟨by decide, by decide, by decide⟩

/-- Claim C4, amended: chunk_id sequences are determined by the hash,
tokenizer, chunk size, text and the source metadata entry alone (so
re-chunking identical input yields identical ids), and under an
injective hash two chunks with the same source but different content
always get different ids; however two chunks that agree on source and
content can still get different ids, because the id hashes the decoded
window before whitespace stripping while content is stripped. -/
theorem chunk_id_function_amended :
    (∀ (hash : String → String) (tk : Tokenizer) (n : Nat) (t : String)
        (m m2 : List (String × Value)),
      metaGetStr m "source" = metaGetStr m2 "source" →
      (chunkText hash tk n t m).map ChunkData.chunk_id =
        (chunkText hash tk n t m2).map ChunkData.chunk_id) ∧
    (∀ (hash : String → String), Function.Injective hash →
      ∀ (tk : Tokenizer) (n1 n2 : Nat) (t1 t2 : String)
        (m1 m2 : List (String × Value)) (c1 c2 : ChunkData),
        c1 ∈ chunkText hash tk n1 t1 m1 → c2 ∈ chunkText hash tk n2 t2 m2 →
        metaGetStr m1 "source" = metaGetStr m2 "source" →
        c1.content ≠ c2.content → c1.chunk_id ≠ c2.chunk_id) := by
  constructor
  · intro hash tk n t m m2 hsrc
    rw [chunkText, chunkText, List.map_map, List.map_map]
    simp only [Function.comp_def, hsrc]
  · intro hash hinj tk n1 n2 t1 t2 m1 m2 c1 c2 h1 h2 hsrc hcont hid
    rw [chunkText] at h1 h2
    obtain ⟨w1, _, rfl⟩ := List.mem_map.mp h1
    obtain ⟨w2, _, rfl⟩ := List.mem_map.mp h2
    simp only at hid hcont
    have heq := hinj hid
    rw [hsrc] at heq
    have hdata := congrArg String.data heq
    rw [String.data_append, String.data_append] at hdata
    have := List.append_cancel_left hdata
    exact hcont (congrArg (fun s => pythonStrip s) (String.ext this))

/-- Witness for chunk_id_function_amended: identical ids for differing
non-source metadata, and distinct ids for distinct contents. -/
theorem chunk_id_function_amended_witness :
    (chunkText (fun s => s) charTok 2 "ab" srcMeta).map ChunkData.chunk_id =
      (chunkText (fun s => s) charTok 2 "ab"
        [("source", Value.str "S"), ("x", Value.int 1)]).map ChunkData.chunk_id :=
  chunk_id_function_amended.1 (fun s => s) charTok 2 "ab" srcMeta
    [("source", Value.str "S"), ("x", Value.int 1)] rfl

/-- Claim C6, counterexample: a negative chunk_size does not fail fast.
range(0, len(tokens), -1) is simply empty, so _chunk_text on a
configured chunk_size of -1 silently returns an empty chunk list for a
non-empty text instead of raising a configuration error.  (The
constructor performs no validation at all.) -/
theorem chunk_size_validation_cex :
    chunkTextE (fun s => s) charTok (-1) "ab" [] = some [] ∧
    charTok.encode "ab" ≠ [] := ⟨rfl, by decide⟩

/-- Claim C6, amended: neither construction nor chunking validates
chunk_size.  A zero chunk_size raises only when chunking runs (the
ValueError of range() on a zero step, not a configuration error), and a
negative chunk_size raises nothing at all: chunking silently returns an
empty list, dropping the whole text. -/
theorem chunk_size_validation_amended :
    (∀ (hash : String → String) (tk : Tokenizer) (t : String)
        (m : List (String × Value)),
      chunkTextE hash tk 0 t m = Option.none) ∧
    (∀ (hash : String → String) (tk : Tokenizer) (k : Int) (t : String)
        (m : List (String × Value)), k < 0 →
      chunkTextE hash tk k t m = some []) := by
  constructor
  · intro hash tk t m
    rfl
  · intro hash tk k t m hk
    rw [chunkTextE, pythonRange0, if_neg (by omega), if_pos hk]
    rfl

/-- Witness for chunk_size_validation_amended at chunk_size -5. -/
theorem chunk_size_validation_amended_witness :
    chunkTextE (fun s => s) charTok (-5) "abc" [] = some [] :=
  chunk_size_validation_amended.2 (fun s => s) charTok (-5) "abc" [] (by decide)

/-- Claim C8, counterexample: a text whose encoding fits in one window
need not yield a chunk containing that text.  Chunking " hi " (4 tokens,
chunk_size 300) yields exactly one chunk, but its content is the
stripped "hi", which does not contain " hi ". -/
theorem chunk_small_text_cex :
    (chunkText (fun s => s) charTok 300 " hi " []).map ChunkData.content = ["hi"] ∧
    ¬ ((" hi " : String).data <:+: ("hi" : String).data) := ⟨by decide, by decide⟩

/-- Claim C8, amended: chunking a text with an empty encoding returns an
empty list without error; a text whose non-empty encoding has at most n
tokens yields exactly one chunk whose content is the whitespace-stripped
decoding of the token sequence — equal to the text itself when the
tokenizer round-trips it and it has no surrounding whitespace (as with
"hi"), but the stripped form otherwise. -/
theorem chunk_small_text_amended :
    (∀ (hash : String → String) (tk : Tokenizer) (n : Nat) (t : String)
        (m : List (String × Value)), tk.encode t = [] →
      chunkText hash tk n t m = []) ∧
    (∀ (hash : String → String) (tk : Tokenizer) (n : Nat) (t : String)
        (m : List (String × Value)), 0 < n → tk.encode t ≠ [] →
      (tk.encode t).length ≤ n →
      chunkText hash tk n t m =
        [{ content := pythonStrip (tk.decode (tk.encode t)), metadata := m,
           chunk_id := hash (metaGetStr m "source" ++ tk.decode (tk.encode t)),
           token_count := (tk.encode t).length }]) ∧
    (∀ (hash : String → String) (tk : Tokenizer) (n : Nat) (t : String)
        (m : List (String × Value)), 0 < n → tk.encode t ≠ [] →
      (tk.encode t).length ≤ n → tk.decode (tk.encode t) = t →
      pythonStrip t = t →
      (chunkText hash tk n t m).map ChunkData.content = [t]) := by
  have hone : ∀ (hash : String → String) (tk : Tokenizer) (n : Nat) (t : String)
      (m : List (String × Value)), 0 < n → tk.encode t ≠ [] →
      (tk.encode t).length ≤ n →
      chunkText hash tk n t m =
        [{ content := pythonStrip (tk.decode (tk.encode t)), metadata := m,
           chunk_id := hash (metaGetStr m "source" ++ tk.decode (tk.encode t)),
           token_count := (tk.encode t).length }] := by
    intro hash tk n t m hn hne hlen
    have hpos : 0 < (tk.encode t).length := List.length_pos.mpr hne
    have hcount : ((tk.encode t).length + n - 1) / n = 1 := by
      apply Nat.div_eq_of_lt_le
      · omega
      · omega
    rw [chunkText, chunkWindows, hcount]
    rw [show List.range' 0 1 n = [0] from rfl]
    rw [List.map_cons, List.map_nil, List.map_cons, List.map_nil]
    rw [List.drop_zero, List.take_of_length_le hlen]
  refine ⟨?_, hone, ?_⟩
  · intro hash tk n t m henc
    rw [chunkText, henc, chunkWindows_nil]
    rfl
  · intro hash tk n t m hn hne hlen hrt hst
    rw [hone hash tk n t m hn hne hlen, hrt, List.map_cons, List.map_nil, hst]

/-- Witness for chunk_small_text_amended: the empty text yields zero
chunks, and "hi" yields exactly one chunk whose content is "hi". -/
theorem chunk_small_text_amended_witness :
    chunkText (fun s => s) charTok 300 "" [] = [] ∧
    (chunkText (fun s => s) charTok 300 "hi" []).map ChunkData.content = ["hi"] :=
  ⟨chunk_small_text_amended.1 (fun s => s) charTok 300 "" [] rfl,
   chunk_small_text_amended.2.2 (fun s => s) charTok 300 "hi" [] (by decide)
     (by decide) (by decide) (by decide) (by decide)⟩

/-! ## The MusicChunk record and the store adapter -/

/-- The MusicChunk dataclass (source lines 47-58). -/
structure MusicChunk where
  source : String
  title : String
  content : String
  metadata : List (String × Value)
  chunk_id : String
  token_count : Nat

/-- The sanitization pass save_to_chromadb runs over all chunk metadata
before batching (source line 720); an exception from any entry aborts
the whole call. -/
def sanitizeAll : List MusicChunk → Option (List (List (String × Value)))
  | [] => some []
  | c :: rest =>
    (sanitizeMetadata c.metadata).bind fun w =>
      (sanitizeAll rest).map fun ws => w :: ws

/-- MusicDataScraper.save_to_chromadb (source lines 713-739): return
early on an empty chunk list; otherwise project documents, sanitized
metadatas and ids, then walk i in range(0, len(chunks), 100) and call
collection.add on each 100-slice inside a try/except that logs and
continues.  The external add call is an oracle returning success or
failure; the result records the outcome of every attempted batch. -/
def saveToChromadb
    (add : List String → List (List (String × Value)) → List String → Bool)
    (chunks : List MusicChunk) : Option (List Bool) :=
  if chunks.isEmpty then some []
  else
    (sanitizeAll chunks).map fun metadatas =>
      let documents := chunks.map MusicChunk.content
      let ids := chunks.map MusicChunk.chunk_id
      (List.range' 0 ((chunks.length + 100 - 1) / 100) 100).map fun i =>
        add ((documents.drop i).take 100) ((metadatas.drop i).take 100)
          ((ids.drop i).take 100)

theorem chunkWindows_length {α : Type} (n : Nat) (l : List α) :
    (chunkWindows n l).length = (l.length + n - 1) / n := by
  simp [chunkWindows]

/-- Claim C9 (confirmed): save_to_chromadb splits the chunk sequence
into the consecutive 100-slices (all full except possibly the last,
together re-assembling the whole sequence in order) and attempts every
batch whatever the add outcomes are: the outcome list always has one
entry per batch, and each attempted insertion carries exactly the
documents and ids of its window.  The only precondition is that the
upfront metadata sanitization pass returns (its failure mode is the C3
corner, prior to any batching). -/
theorem save_batches :
    (∀ (add : List String → List (List (String × Value)) → List String → Bool)
        (chunks : List MusicChunk) (outs : List Bool),
      saveToChromadb add chunks = some outs →
      outs.length = (chunkWindows 100 chunks).length) ∧
    (∀ (add : List String → List String → Bool) (chunks : List MusicChunk)
        (outs : List Bool),
      saveToChromadb (fun docs _ ids => add docs ids) chunks = some outs →
      outs = (chunkWindows 100 chunks).map
        (fun b => add (b.map MusicChunk.content) (b.map MusicChunk.chunk_id))) ∧
    (∀ chunks : List MusicChunk,
      (chunkWindows 100 chunks).flatten = chunks ∧
      (∀ b ∈ chunkWindows 100 chunks, b.length ≤ 100 ∧ b ≠ []) ∧
      (∀ b ∈ (chunkWindows 100 chunks).dropLast, b.length = 100)) := by
  have hlen100 : (0 : Nat) < 100 := by omega
  have houts : ∀ (add : List String → List (List (String × Value)) → List String → Bool)
      (chunks : List MusicChunk) (outs : List Bool),
      saveToChromadb add chunks = some outs →
      outs = (List.range' 0 ((chunks.length + 100 - 1) / 100) 100).map fun i =>
        add (((chunks.map MusicChunk.content).drop i).take 100)
          (((Option.getD (sanitizeAll chunks) []).drop i).take 100)
          (((chunks.map MusicChunk.chunk_id).drop i).take 100) := by
    intro add chunks outs h
    rw [saveToChromadb] at h
    by_cases hemp : chunks.isEmpty
    · rw [if_pos hemp] at h
      cases h
      have : chunks = [] := List.isEmpty_iff.mp hemp
      subst this
      rfl
    · rw [if_neg hemp] at h
      cases hsan : sanitizeAll chunks with
      | none => rw [hsan] at h; simp at h
      | some mets =>
        rw [hsan] at h
        simp only [Option.map_some', Option.some.injEq] at h
        subst h
        rfl
  refine ⟨?_, ?_, ?_⟩
  · intro add chunks outs h
    rw [houts add chunks outs h]
    simp [chunkWindows]
  · intro add chunks outs h
    rw [houts _ chunks outs h, chunkWindows, List.map_map]
    refine List.map_congr_left ?_
    intro i _
    simp only [Function.comp_apply]
    rw [← List.map_drop, ← List.map_take, ← List.map_drop, ← List.map_take]
  · intro chunks
    rw [chunkWindows_eq_chunkList 100 hlen100]
    exact ⟨chunkList_flatten 100 hlen100 chunks,
      fun b hb => chunkList_mem 100 hlen100 chunks b hb,
      fun b hb => chunkList_dropLast 100 hlen100 chunks b hb⟩

/-- A concrete chunk used by witnesses. -/
def mc : MusicChunk :=
  { source := "freetar", title := "t", content := "c",
    metadata := [("source", Value.str "freetar")], chunk_id := "id",
    token_count := 1 }

/-- Witness for save_batches on a single chunk with an oracle that
always fails: the one batch is still attempted and recorded. -/
theorem save_batches_witness :
    ([false] : List Bool).length = (chunkWindows 100 [mc]).length ∧
    (chunkWindows 100 [mc]).flatten = [mc] :=
  ⟨save_batches.1 (fun _ _ _ => false) [mc] [false] rfl,
   (save_batches.2.2 [mc]).1⟩

/-! ## The summary report: MusicDataScraper._print_summary -/

/-- Counts of chunks per value of a key, in first-seen order, modelling
pandas value_counts (its descending-count ordering is not modelled;
which (value, count) pairs appear is what matters here). -/
def valueCounts (key : MusicChunk → String) (chunks : List MusicChunk) :
    List (String × Nat) :=
  ((chunks.map key).dedup).map fun s =>
    (s, (chunks.filter (fun c => key c = s)).length)

/-- The lines MusicDataScraper._print_summary (source lines 787-808)
writes.  With an empty chunk list the function returns before printing
anything.  The DataFrame is built from chunk dicts, so its columns are
the six MusicChunk field names; the guard on line 805 tests "type"
against those columns and never succeeds, so the per-type value counts
are never printed, only their header.  The average-token line renders
the mean from exact integer arithmetic here (the float formatting is
immaterial to every statement below), and blank separator lines and the
thousands separator of the total are not modelled. -/
def printSummary (chunks : List MusicChunk) : List String :=
  if chunks.isEmpty then []
  else
    let total := chunks.length
    let tokens := (chunks.map MusicChunk.token_count).sum
    let dfColumns := ["source", "title", "content", "metadata", "chunk_id",
      "token_count"]
    [(⟨List.replicate 50 (Char.ofNat 61)⟩ : String),
     "SCRAPING SUMMARY",
     (⟨List.replicate 50 (Char.ofNat 61)⟩ : String),
     "Total chunks: " ++ toString total,
     "Average token count: " ++ toString (10 * tokens / total / 10) ++ "." ++
       toString (10 * tokens / total % 10),
     "Total tokens: " ++ toString tokens,
     "Chunks by source:"] ++
    (valueCounts MusicChunk.source chunks).map
      (fun p => p.1 ++ "    " ++ toString p.2) ++
    ("Chunks by type:" ::
      (if dfColumns.contains "type" then
        (valueCounts (fun c => metaGetStr c.metadata "type") chunks).map
          (fun p => p.1 ++ "    " ++ toString p.2)
       else []) ++
      [(⟨List.replicate 50 (Char.ofNat 61)⟩ : String)])

/-- Claim C7, counterexample: in the all-failed case (zero chunks
collected) no summary is printed at all — _print_summary returns at its
first line instead of printing a report of zeros. -/
theorem summary_empty_cex : printSummary [] = [] := rfl

/-- Claim C7, amended: a summary is printed whenever at least one chunk
was collected: header, total, per-source counts and the per-type header;
the per-type counts themselves sit behind a column test that never
succeeds, so only their header appears.  With zero chunks nothing is
printed. -/
theorem summary_nonempty_amended :
    ∀ chunks : List MusicChunk, chunks ≠ [] →
      printSummary chunks ≠ [] ∧
      ("Total chunks: " ++ toString chunks.length) ∈ printSummary chunks ∧
      "Chunks by source:" ∈ printSummary chunks ∧
      (∀ p ∈ valueCounts MusicChunk.source chunks,
        (p.1 ++ "    " ++ toString p.2) ∈ printSummary chunks) ∧
      printSummary chunks =
        [(⟨List.replicate 50 (Char.ofNat 61)⟩ : String),
         "SCRAPING SUMMARY",
         (⟨List.replicate 50 (Char.ofNat 61)⟩ : String),
         "Total chunks: " ++ toString chunks.length,
         "Average token count: " ++
           toString (10 * (chunks.map MusicChunk.token_count).sum / chunks.length / 10) ++
           "." ++
           toString (10 * (chunks.map MusicChunk.token_count).sum / chunks.length % 10),
         "Total tokens: " ++ toString (chunks.map MusicChunk.token_count).sum,
         "Chunks by source:"] ++
        (valueCounts MusicChunk.source chunks).map
          (fun p => p.1 ++ "    " ++ toString p.2) ++
        ["Chunks by type:",
         (⟨List.replicate 50 (Char.ofNat 61)⟩ : String)] := by
  intro chunks h
  cases chunks with
  | nil => exact absurd rfl h
  | cons c cs =>
    have heq : printSummary (c :: cs) =
        [(⟨List.replicate 50 (Char.ofNat 61)⟩ : String),
         "SCRAPING SUMMARY",
         (⟨List.replicate 50 (Char.ofNat 61)⟩ : String),
         "Total chunks: " ++ toString (c :: cs).length,
         "Average token count: " ++
           toString (10 * ((c :: cs).map MusicChunk.token_count).sum / (c :: cs).length / 10) ++
           "." ++
           toString (10 * ((c :: cs).map MusicChunk.token_count).sum / (c :: cs).length % 10),
         "Total tokens: " ++ toString ((c :: cs).map MusicChunk.token_count).sum,
         "Chunks by source:"] ++
        (valueCounts MusicChunk.source (c :: cs)).map
          (fun p => p.1 ++ "    " ++ toString p.2) ++
        ["Chunks by type:",
         (⟨List.replicate 50 (Char.ofNat 61)⟩ : String)] := rfl
    refine ⟨by rw [heq]; simp, ?_, ?_, ?_, heq⟩
    · rw [heq]; simp
    · rw [heq]; simp
    · intro p hp
      rw [heq]
      simp only [List.mem_append, List.mem_map]
      exact Or.inl (Or.inr ⟨p, hp, rfl⟩)

/-- Witness for summary_nonempty_amended at a one-chunk list. -/
theorem summary_nonempty_amended_witness :
    printSummary [mc] ≠ [] ∧
    ("Total chunks: " ++ toString ([mc] : List MusicChunk).length) ∈ printSummary [mc] :=
  ⟨(summary_nonempty_amended [mc] (by simp)).1,
   (summary_nonempty_amended [mc] (by simp)).2.1⟩

/-! ## Structured-record producers: HookTheory and freetar -/

/-- One song record from the HookTheory trends API, with the optional
fields the code reads via .get (probability is a JSON number, rendered
through str() into the template). -/
structure HTSong where
  song : Option String
  artist : Option String
  probability : Option Value

/-- The chunk scrape_hooktheory_data builds for one (progression, song)
pair (source lines 670-696): a templated content string, metadata,
chunk_id = md5(content), and token_count set to the full encoded length
of the content — the chunker is not involved, so nothing bounds it by
chunk_size. -/
def hooktheoryChunk (hash : String → String) (tk : Tokenizer)
    (progression : String) (s : HTSong) : MusicChunk :=
  let content := "Chord progression: " ++ progression ++ "\n" ++
    "Song: " ++ s.song.getD "Unknown" ++ "\n" ++
    "Artist: " ++ s.artist.getD "Unknown" ++ "\n" ++
    "Probability: " ++ pyStr (s.probability.getD (Value.int 0)) ++ "\n"
  { source := "HookTheory"
    title := s.artist.getD "Unknown" ++ " - " ++ s.song.getD "Unknown"
    content := content
    metadata := [("source", Value.str "HookTheory"),
      ("title", Value.str (s.artist.getD "Unknown" ++ " - " ++ s.song.getD "Unknown")),
      ("type", Value.str "chord_progression"),
      ("progression", Value.str progression),
      ("instrument", Value.str "general")]
    chunk_id := hash content
    token_count := (tk.encode content).length }

/-- The section alternation of the regex on source line 1050, tried in
pattern order. -/
def sectionKeywords : List String := ["Verse", "Chorus", "Bridge", "Solo", "Intro", "Outro"]

/-- Case-insensitive match of one of the keywords at the start of cs
(first keyword in alternation order wins, as in the regex engine),
returning the matched characters in their original casing and the
remaining characters. -/
def matchKeyword (cs : List Char) : List String → Option (List Char × List Char)
  | [] => Option.none
  | kw :: rest =>
    if (cs.take kw.length).map Char.toLower = kw.data.map Char.toLower then
      some (cs.take kw.length, cs.drop kw.length)
    else matchKeyword cs rest

/-- Scanner core of re.split with a capturing group: walk the text left
to right; each keyword occurrence becomes its own element and the text
between occurrences becomes the others.  Structural recursion on a fuel
that starts at the text length; every step consumes at least one
character, so the fuel bound is never the binding constraint. -/
def splitAux : Nat → List Char → List Char → List String
  | 0, acc, rest => [⟨acc.reverse ++ rest⟩]
  | _+1, acc, [] => [⟨acc.reverse⟩]
  | fuel+1, acc, c :: rest =>
    match matchKeyword (c :: rest) sectionKeywords with
    | some (mtext, rest2) =>
      (⟨acc.reverse⟩ : String) :: (⟨mtext⟩ : String) :: splitAux fuel [] rest2
    | Option.none => splitAux fuel (c :: acc) rest

/-- re.split(r'(Verse|Chorus|Bridge|Solo|Intro|Outro)', content, re.I),
source line 1050. -/
def splitSections (s : String) : List String := splitAux s.data.length [] s.data

/-- The freetar record for one tab section, source lines 1081-1086. -/
def freetarDict (title sect tab : String) : List (String × Value) :=
  [("source", Value.str "freetar"), ("title", Value.str title),
   ("section", Value.str sect), ("tab", Value.str tab)]

/-- One freetar chunk (source lines 1087-1099, and 1055-1072 for the
implicit Intro): content is the json.dumps text of the record (all
values are strings, so json.dumps always succeeds on it), chunk_id =
md5(title + section + serialized text), token_count is the full encoded
length of the serialized text — again not bounded by chunk_size. -/
def mkFreetarChunk (hash : String → String) (tk : Tokenizer)
    (title sect tab : String) : MusicChunk :=
  let d := freetarDict title sect tab
  let text := jsonDumpsStr (Value.dict d)
  { source := "freetar", title := title, content := text, metadata := d,
    chunk_id := hash (title ++ sect ++ text),
    token_count := (tk.encode text).length }

/-- The pair loop of parse_freetar_ascii_tabs, source lines 1075-1099:
for i in range(1, len(segments), 2) take the section name at i and the
body at i+1 (empty when past the end) and keep chunks with a non-blank
body.  range(1, L, 2) has L/2 elements. -/
def freetarSectionChunks (hash : String → String) (tk : Tokenizer)
    (title : String) (segments : List String) : List MusicChunk :=
  (List.range' 1 (segments.length / 2) 2).filterMap fun i =>
    if i < segments.length then
      let sect := pythonStrip (segments.getD i "")
      let tab := if i + 1 < segments.length then pythonStrip (segments.getD (i+1) "")
        else ""
      if tab ≠ "" then some (mkFreetarChunk hash tk title sect tab)
      else Option.none
    else Option.none

/-- parse_freetar_ascii_tabs (source lines 1036-1105) for one readable
file with basename title and the given content: split on section
keywords, emit an implicit Intro chunk when a non-blank prefix precedes
the first keyword, then one chunk per (keyword, non-blank body) pair. -/
def freetarChunks (hash : String → String) (tk : Tokenizer)
    (title content : String) : List MusicChunk :=
  let segments := splitSections content
  (if ¬ segments.isEmpty ∧ pythonStrip (segments.getD 0 "") ≠ "" then
    [mkFreetarChunk hash tk title "Intro" (pythonStrip (segments.getD 0 ""))]
   else []) ++
  freetarSectionChunks hash tk title segments

theorem jsonDumpsStr_dict_ne_empty (d : List (String × Value)) :
    jsonDumpsStr (Value.dict d) ≠ "" := by
  intro h
  have := congrArg String.data h
  rw [jsonDumpsStr] at this
  simp only [String.data_append] at this
  simp at this

theorem freetarChunks_content_ne_empty (hash : String → String) (tk : Tokenizer)
    (title content : String) :
    ∀ c ∈ freetarChunks hash tk title content, c.content ≠ "" := by
  intro c hc
  rw [freetarChunks] at hc
  rcases List.mem_append.mp hc with hc | hc
  · split at hc
    · rcases List.mem_singleton.mp hc with rfl
      exact jsonDumpsStr_dict_ne_empty _
    · simp at hc
  · rw [freetarSectionChunks] at hc
    obtain ⟨i, _, hi⟩ := List.mem_filterMap.mp hc
    split at hi
    · split at hi <;>
        first
          | (cases hi; exact jsonDumpsStr_dict_ne_empty _)
          | (simp at hi; obtain ⟨-, rfl⟩ := hi; exact jsonDumpsStr_dict_ne_empty _)
          | simp at hi
    · simp at hi

/-- A 350-character tab body. -/
def tabBody : String := ⟨List.replicate 350 (Char.ofNat 45)⟩

set_option maxRecDepth 40000 in
/-- Claim C2, counterexample: structured-record producers do not bound
token_count by the configured chunk_size, and the chunker can emit
empty content.  A freetar file whose Verse body is 350 characters
yields one chunk of 423 tokens under the character tokenizer, above the
configured (default) chunk_size of 300; and chunking a single space
yields a chunk whose content is empty after stripping. -/
theorem chunk_size_bound_cex :
    (freetarChunks (fun s => s) charTok "tab1.txt" ("Verse\n" ++ tabBody)).map
      MusicChunk.token_count = [423] ∧
    (300 < 423) ∧
    (chunkText (fun s => s) charTok 300 " " []).map ChunkData.content = [""] := by
  refine ⟨by decide, by decide, by decide⟩

/-- Claim C2, amended: chunks produced by the chunker have token_count
at most the configured chunk_size (for a positive chunk size), and the
HookTheory and freetar producers always emit non-empty content; but the
structured-record producers set token_count to the full encoded length
of their serialized content, which is not bounded by chunk_size, and
the chunker itself can emit a chunk whose stripped content is empty. -/
theorem chunk_size_bound_amended :
    (∀ (hash : String → String) (tk : Tokenizer) (n : Nat) (t : String)
        (m : List (String × Value)), 0 < n →
      ∀ c ∈ chunkText hash tk n t m, c.token_count ≤ n) ∧
    (∀ (hash : String → String) (tk : Tokenizer) (title content : String),
      ∀ c ∈ freetarChunks hash tk title content, c.content ≠ "") ∧
    (∀ (hash : String → String) (tk : Tokenizer) (progression : String)
        (s : HTSong), (hooktheoryChunk hash tk progression s).content ≠ "") ∧
    (∀ (hash : String → String) (tk : Tokenizer) (title sect tab : String),
      (mkFreetarChunk hash tk title sect tab).token_count =
        (tk.encode (jsonDumpsStr (Value.dict (freetarDict title sect tab)))).length) ∧
    (∀ (hash : String → String) (tk : Tokenizer) (progression : String) (s : HTSong),
      (hooktheoryChunk hash tk progression s).token_count =
        (tk.encode (hooktheoryChunk hash tk progression s).content).length) := by
  refine ⟨?_, freetarChunks_content_ne_empty, ?_, fun _ _ _ _ _ => rfl, fun _ _ _ _ => rfl⟩
  · intro hash tk n t m hn c hc
    rw [chunkText, chunkWindows_eq_chunkList n hn] at hc
    obtain ⟨w, hw, rfl⟩ := List.mem_map.mp hc
    exact (chunkList_mem n hn _ w hw).1
  · intro hash tk progression s h
    have := congrArg String.data h
    rw [hooktheoryChunk] at this
    simp only [String.data_append] at this
    simp at this

/-- Witness for chunk_size_bound_amended at concrete inputs: a one-token
chunk respects the bound, and a concrete freetar chunk is non-empty. -/
theorem chunk_size_bound_amended_witness :
    ({ content := "ab", metadata := [], chunk_id := "ab", token_count := 2 } :
      ChunkData).token_count ≤ 2 ∧
    ({ content := "x", metadata := [], chunk_id := "x", token_count := 1 } :
      ChunkData) ∈ chunkText (fun s => s) charTok 2 "x" [] :=
  ⟨chunk_size_bound_amended.1 (fun s => s) charTok 2 "ab" [] (by decide) _
    (List.mem_singleton.mpr rfl),
   List.mem_singleton.mpr rfl⟩

/-! ## Injectivity of the decimal rendering of Nat

The structured-record chunk ids interpolate enumerate indices through
str(); distinctness of ids rests on distinct naturals having distinct
decimal strings. -/

/-- Decimal digit characters of n, most significant first: the
recursion underlying Nat.repr. -/
def decDigits (n : Nat) : List Char :=
  if h : n / 10 = 0 then [Nat.digitChar (n % 10)]
  else decDigits (n / 10) ++ [Nat.digitChar (n % 10)]
termination_by n
decreasing_by
  have hn : 0 < n := by
    rcases Nat.eq_zero_or_pos n with rfl | h1
    · simp at h
    · exact h1
  exact Nat.div_lt_self hn (by omega)

theorem decDigits_eq_zero {n : Nat} (h : n / 10 = 0) :
    decDigits n = [Nat.digitChar (n % 10)] := by
  rw [decDigits, dif_pos h]

theorem decDigits_eq_pos {n : Nat} (h : ¬ n / 10 = 0) :
    decDigits n = decDigits (n / 10) ++ [Nat.digitChar (n % 10)] := by
  rw [decDigits]
  rw [dif_neg h]

theorem decDigits_ne_nil (n : Nat) : decDigits n ≠ [] := by
  by_cases h : n / 10 = 0
  · rw [decDigits_eq_zero h]; simp
  · rw [decDigits_eq_pos h]; simp

theorem digitChar_inj : ∀ a < 10, ∀ b < 10,
    Nat.digitChar a = Nat.digitChar b → a = b := by decide

theorem decDigits_inj : ∀ m n : Nat, decDigits m = decDigits n → m = n := by
  intro m
  induction m using Nat.strong_induction_on with
  | _ m ih =>
    intro n h
    by_cases hm : m / 10 = 0 <;> by_cases hn : n / 10 = 0
    · rw [decDigits_eq_zero hm, decDigits_eq_zero hn] at h
      simp only [List.cons.injEq, and_true] at h
      have := digitChar_inj (m % 10) (by omega) (n % 10) (by omega) h
      omega
    · exfalso
      rw [decDigits_eq_zero hm, decDigits_eq_pos hn] at h
      have hlen := congrArg List.length h
      simp only [List.length_cons, List.length_nil, List.length_append] at hlen
      have := decDigits_ne_nil (n / 10)
      have hz : (decDigits (n / 10)).length = 0 := by omega
      exact this (List.length_eq_zero.mp hz)
    · exfalso
      rw [decDigits_eq_pos hm, decDigits_eq_zero hn] at h
      have hlen := congrArg List.length h
      simp only [List.length_cons, List.length_nil, List.length_append] at hlen
      have := decDigits_ne_nil (m / 10)
      have hz : (decDigits (m / 10)).length = 0 := by omega
      exact this (List.length_eq_zero.mp hz)
    · rw [decDigits_eq_pos hm, decDigits_eq_pos hn] at h
      obtain ⟨h1, h2⟩ := List.append_inj' h (by simp)
      have hquot := ih (m / 10) (Nat.div_lt_self (by omega) (by omega)) (n / 10) h1
      simp only [List.cons.injEq, and_true] at h2
      have := digitChar_inj (m % 10) (by omega) (n % 10) (by omega) h2
      omega

theorem toDigitsCore_eq_decDigits : ∀ (fuel n : Nat) (ds : List Char), n < fuel →
    Nat.toDigitsCore 10 fuel n ds = decDigits n ++ ds := by
  intro fuel
  induction fuel with
  | zero => intro n ds h; omega
  | succ fuel ih =>
    intro n ds h
    have hunf : Nat.toDigitsCore 10 (fuel+1) n ds =
        (if n / 10 = 0 then Nat.digitChar (n % 10) :: ds
         else Nat.toDigitsCore 10 fuel (n / 10) (Nat.digitChar (n % 10) :: ds)) := by
      simp [Nat.toDigitsCore]
    rw [hunf]
    by_cases h0 : n / 10 = 0
    · rw [if_pos h0, decDigits_eq_zero h0]
      rfl
    · rw [if_neg h0]
      have hlt : n / 10 < n := Nat.div_lt_self (by omega) (by omega)
      rw [ih (n / 10) _ (by omega), decDigits_eq_pos h0]
      simp [List.append_assoc]

theorem natToString_inj : ∀ m n : Nat, toString m = toString n → m = n := by
  intro m n h
  have h2 : Nat.toDigits 10 m = Nat.toDigits 10 n := congrArg String.data h
  rw [show Nat.toDigits 10 m = Nat.toDigitsCore 10 (m+1) m [] from rfl,
      show Nat.toDigits 10 n = Nat.toDigitsCore 10 (n+1) n [] from rfl,
      toDigitsCore_eq_decDigits (m+1) m [] (by omega),
      toDigitsCore_eq_decDigits (n+1) n [] (by omega)] at h2
  simp only [List.append_nil] at h2
  exact decDigits_inj m n h2

/-! ## Structured-record parsers: TuxGuitar, MIDI, AlphaTex -/

/-- The PyGuitarPro fields the TuxGuitar parser reads. -/
structure GPNote where
  stringNum : Int
  fret : Int

/-- A beat: its notes, optional chord name, optional duration value. -/
structure GPBeat where
  notes : List GPNote
  chord : Option String
  duration : Option Int

/-- A voice of a measure. -/
structure GPVoice where
  beats : List GPBeat

/-- A measure of a track. -/
structure GPMeasure where
  voices : List GPVoice

/-- A track; percussion tracks are skipped by the parser but still
counted by enumerate. -/
structure GPTrack where
  percussion : Bool
  measures : List GPMeasure

/-- A parsed song: optional title (empty is falsy in Python), tempo,
tracks. -/
structure GPSong where
  title : Option String
  tempo : Int
  tracks : List GPTrack

/-- The per-beat record parse_tuxguitar_files builds (source lines
845-856): lists pre-converted to joined strings and the string/fret
pairs to a JSON string, exactly as the code does for ChromaDB
compatibility.  The join of an empty notes list and the "" fallback of
the code coincide. -/
def tuxguitarDict (title : String) (tempo : Int) (trackIdx measureNum beatIdx : Nat)
    (b : GPBeat) : List (String × Value) :=
  [("source", Value.str "TuxGuitar"),
   ("title", Value.str title),
   ("track", Value.int trackIdx),
   ("measure", Value.int measureNum),
   ("beat", Value.int beatIdx),
   ("chord", match b.chord with | some c => Value.str c | Option.none => Value.none),
   ("tempo", Value.int tempo),
   ("notes", Value.str (String.intercalate ", "
     (b.notes.map (fun n => toString n.fret)))),
   ("string_fret", Value.str (jsonDumpsStr (Value.list (b.notes.map (fun n =>
     Value.dict [("string", Value.int n.stringNum), ("fret", Value.int n.fret)]))))),
   ("duration", match b.duration with | some d => Value.int d | Option.none => Value.none)]

/-- The chunk id hash input of parse_tuxguitar_files, source line 860:
f"{title}{track_idx}{measure_num}{beat_idx}{chunk_text}". -/
def tuxIdInput (title : String) (trackIdx measureNum beatIdx : Nat)
    (chunkTextS : String) : String :=
  title ++ toString trackIdx ++ toString measureNum ++ toString beatIdx ++ chunkTextS

/-- One TuxGuitar beat chunk (source lines 858-869). -/
def tuxguitarBeatChunk (hash : String → String) (tk : Tokenizer) (title : String)
    (tempo : Int) (trackIdx measureNum beatIdx : Nat) (b : GPBeat) : MusicChunk :=
  let d := tuxguitarDict title tempo trackIdx measureNum beatIdx b
  let text := jsonDumpsStr (Value.dict d)
  { source := "TuxGuitar", title := title, content := text, metadata := d,
    chunk_id := hash (tuxIdInput title trackIdx measureNum beatIdx text),
    token_count := (tk.encode text).length }

/-- parse_tuxguitar_files (source lines 810-876) for one successfully
parsed song with the given basename: title falls back to the basename
when missing or empty, track indices count percussion tracks too (which
emit nothing), measures are enumerated from 1, voices are walked
without contributing to the id, beats are enumerated from 0. -/
def tuxguitarChunks (hash : String → String) (tk : Tokenizer)
    (basename : String) (song : GPSong) : List MusicChunk :=
  let title := match song.title with
    | some t => if t = "" then basename else t
    | Option.none => basename
  (song.tracks.enum.filter (fun p => !p.2.percussion)).flatMap fun p =>
    p.2.measures.enum.flatMap fun q =>
      q.2.voices.flatMap fun v =>
        v.beats.enum.map fun r =>
          tuxguitarBeatChunk hash tk title song.tempo p.1 (q.1 + 1) r.1 r.2

/-- A music21 measure as read by the MIDI parser: its number and note
names. -/
structure M21Measure where
  number : Nat
  notes : List String

/-- A music21 part: its measures, and the flattened note names used
when the part has no measures. -/
structure M21Part where
  measures : List M21Measure
  flatNotes : List String

/-- A parsed MIDI score. -/
structure M21Score where
  tempo : Option Int
  parts : List M21Part

/-- The per-measure record parse_midi_files builds (source lines
1007-1014, and 971-978 for the measureless fallback). -/
def midiDict (title : String) (partIdx measureNumber : Nat)
    (notes : List String) (tempo : Option Int) : List (String × Value) :=
  [("source", Value.str "GuitarTrainer"),
   ("title", Value.str title),
   ("part", Value.int partIdx),
   ("measure", Value.int measureNumber),
   ("notes", Value.str (String.intercalate ", " notes)),
   ("tempo", match tempo with | some t => Value.int t | Option.none => Value.none)]

/-- The chunk id hash input of parse_midi_files, source lines 982 and
1018: f"{title}{part_idx}{measure_number}{chunk_text}" (the fallback
path uses the literal measure number 1). -/
def midiIdInput (title : String) (partIdx measureNumber : Nat)
    (chunkTextS : String) : String :=
  title ++ toString partIdx ++ toString measureNumber ++ chunkTextS

/-- One MIDI measure chunk (source lines 1016-1028). -/
def midiMeasureChunk (hash : String → String) (tk : Tokenizer) (title : String)
    (tempo : Option Int) (partIdx : Nat) (meas : M21Measure) : MusicChunk :=
  let d := midiDict title partIdx meas.number meas.notes tempo
  let text := jsonDumpsStr (Value.dict d)
  { source := "GuitarTrainer", title := title, content := text, metadata := d,
    chunk_id := hash (midiIdInput title partIdx meas.number text),
    token_count := (tk.encode text).length }

/-- parse_midi_files (source lines 935-1034) for one parsed score whose
basename is the title: parts without measures yield one whole-part
chunk at measure 1; otherwise each measure with notes yields one
chunk. -/
def midiChunks (hash : String → String) (tk : Tokenizer)
    (title : String) (score : M21Score) : List MusicChunk :=
  score.parts.enum.flatMap fun p =>
    if p.2.measures.isEmpty then
      let d := midiDict title p.1 1 p.2.flatNotes score.tempo
      let text := jsonDumpsStr (Value.dict d)
      [{ source := "GuitarTrainer", title := title, content := text, metadata := d,
         chunk_id := hash (midiIdInput title p.1 1 text),
         token_count := (tk.encode text).length }]
    else
      p.2.measures.flatMap fun meas =>
        if !meas.notes.isEmpty then
          [midiMeasureChunk hash tk title score.tempo p.1 meas]
        else []

/-- The title str() the AlphaTex id uses: chunk_dict.get("title", ""). -/
def alphatexTitleForId (d : List (String × Value)) : String :=
  match d.lookup "title" with
  | some v => pyStr v
  | Option.none => ""

/-- parse_alphatex_files (source lines 896-919) for one file whose
Node-parser output decoded to the record list data: every record
becomes one chunk whose content is its json.dumps text and whose
chunk_id = md5(record.get("title", "") + serialized text) — no
positional component (no measure, beat or list index) enters the id,
unlike the TuxGuitar and MIDI parsers. -/
def alphatexChunks (hash : String → String) (tk : Tokenizer)
    (basename : String) (data : List (List (String × Value))) : List MusicChunk :=
  data.map fun d =>
    let text := jsonDumpsStr (Value.dict d)
    { source := "AlphaTab"
      title := match d.lookup "title" with
        | some v => pyStr v
        | Option.none => basename
      content := text
      metadata := d
      chunk_id := hash (alphatexTitleForId d ++ text)
      token_count := (tk.encode text).length }

/-- A concrete AlphaTex record. -/
def atxRecord : List (String × Value) :=
  [("title", Value.str "T"), ("notes", Value.str "E4 F4")]

/-- Claim C5, counterexample: the AlphaTex parser does not fold any
positional field into the chunk id.  Two records at different positions
in the parser output (two distinct structured records, e.g. two
sections or measures that serialized to the same text) receive the same
chunk_id, here exhibited with an injective (identity) model hash. -/
theorem positional_id_cex :
    (alphatexChunks (fun s => s) charTok "f.atx" [atxRecord, atxRecord]).length = 2 ∧
    ((alphatexChunks (fun s => s) charTok "f.atx" [atxRecord, atxRecord]).map
      MusicChunk.chunk_id).getD 0 "A" =
    ((alphatexChunks (fun s => s) charTok "f.atx" [atxRecord, atxRecord]).map
      MusicChunk.chunk_id).getD 1 "B" := ⟨by decide, by decide⟩

/-- Claim C5, amended: the TuxGuitar and MIDI parsers fold their
positional indices (title, track, measure, beat — resp. part, measure)
into the chunk id, so under a collision-free hash two records that
agree on everything else (including coincidentally identical serialized
text) but differ in measure, beat or track get different ids; the
AlphaTex parser folds no positional field at all — its id depends only
on the record's title entry and serialized text, so identical records
at different positions always collide. -/
theorem positional_id_amended :
    (∀ (hash : String → String), Function.Injective hash →
      ∀ (title : String) (ti bi m1 m2 : Nat) (text : String), m1 ≠ m2 →
        hash (tuxIdInput title ti m1 bi text) ≠ hash (tuxIdInput title ti m2 bi text)) ∧
    (∀ (hash : String → String), Function.Injective hash →
      ∀ (title : String) (ti t2 bi m : Nat) (text : String), ti ≠ t2 →
        hash (tuxIdInput title ti m bi text) ≠ hash (tuxIdInput title t2 m bi text)) ∧
    (∀ (hash : String → String), Function.Injective hash →
      ∀ (title : String) (ti m b1 b2 : Nat) (text : String), b1 ≠ b2 →
        hash (tuxIdInput title ti m b1 text) ≠ hash (tuxIdInput title ti m b2 text)) ∧
    (∀ (hash : String → String), Function.Injective hash →
      ∀ (title : String) (p m1 m2 : Nat) (text : String), m1 ≠ m2 →
        hash (midiIdInput title p m1 text) ≠ hash (midiIdInput title p m2 text)) ∧
    (∀ (hash : String → String), Function.Injective hash →
      ∀ (title : String) (p1 p2 m : Nat) (text : String), p1 ≠ p2 →
        hash (midiIdInput title p1 m text) ≠ hash (midiIdInput title p2 m text)) ∧
    (∀ (hash : String → String) (tk : Tokenizer) (b : String)
        (d : List (String × Value)),
      (alphatexChunks hash tk b [d, d]).map MusicChunk.chunk_id =
        [hash (alphatexTitleForId d ++ jsonDumpsStr (Value.dict d)),
         hash (alphatexTitleForId d ++ jsonDumpsStr (Value.dict d))]) := by
  refine ⟨?_, ?_, ?_, ?_, ?_, fun hash tk b d => rfl⟩
  · intro hash hinj title ti bi m1 m2 text hm hid
    apply hm
    have hd := congrArg String.data (hinj hid)
    simp only [tuxIdInput, String.data_append, List.append_assoc] at hd
    have h1 := List.append_cancel_left hd
    have h2 := List.append_cancel_left h1
    have h3 := List.append_cancel_right h2
    exact natToString_inj m1 m2 (String.ext h3)
  · intro hash hinj title ti t2 bi m text ht hid
    apply ht
    have hd := congrArg String.data (hinj hid)
    simp only [tuxIdInput, String.data_append, List.append_assoc] at hd
    have h1 := List.append_cancel_left hd
    have h2 := List.append_cancel_right h1
    exact natToString_inj ti t2 (String.ext h2)
  · intro hash hinj title ti m b1 b2 text hb hid
    apply hb
    have hd := congrArg String.data (hinj hid)
    simp only [tuxIdInput, String.data_append, List.append_assoc] at hd
    have h1 := List.append_cancel_left hd
    have h2 := List.append_cancel_left h1
    have h3 := List.append_cancel_left h2
    have h4 := List.append_cancel_right h3
    exact natToString_inj b1 b2 (String.ext h4)
  · intro hash hinj title p m1 m2 text hm hid
    apply hm
    have hd := congrArg String.data (hinj hid)
    simp only [midiIdInput, String.data_append, List.append_assoc] at hd
    have h1 := List.append_cancel_left hd
    have h2 := List.append_cancel_left h1
    have h3 := List.append_cancel_right h2
    exact natToString_inj m1 m2 (String.ext h3)
  · intro hash hinj title p1 p2 m text hp hid
    apply hp
    have hd := congrArg String.data (hinj hid)
    simp only [midiIdInput, String.data_append, List.append_assoc] at hd
    have h1 := List.append_cancel_left hd
    have h2 := List.append_cancel_right h1
    exact natToString_inj p1 p2 (String.ext h2)

/-- Witness for positional_id_amended: under the identity hash, the
TuxGuitar id distinguishes measures 1 and 2 and beats 0 and 1 at
identical text, and the MIDI id distinguishes measures 3 and 4 and
parts 0 and 1. -/
theorem positional_id_amended_witness :
    (fun s => s) (tuxIdInput "T" 0 1 0 "x") ≠ (fun s => s) (tuxIdInput "T" 0 2 0 "x") ∧
    (fun s => s) (tuxIdInput "T" 0 1 0 "x") ≠ (fun s => s) (tuxIdInput "T" 0 1 1 "x") ∧
    (fun s => s) (midiIdInput "T" 0 3 "x") ≠ (fun s => s) (midiIdInput "T" 0 4 "x") ∧
    (fun s => s) (midiIdInput "T" 0 3 "x") ≠ (fun s => s) (midiIdInput "T" 1 3 "x") :=
  ⟨positional_id_amended.1 (fun s => s) (fun _ _ h => h) "T" 0 0 1 2 "x" (by decide),
   positional_id_amended.2.2.1 (fun s => s) (fun _ _ h => h) "T" 0 1 0 1 "x" (by decide),
   positional_id_amended.2.2.2.1 (fun s => s) (fun _ _ h => h) "T" 0 3 4 "x" (by decide),
   positional_id_amended.2.2.2.2.1 (fun s => s) (fun _ _ h => h) "T" 0 1 3 "x" (by decide)⟩

end WebScraper
